import Mathlib

/-!
Shallow embedding of NNGT's stochastic graph-generation module
(`src/nngt/generation/graph_connectivity.py`) and proofs about it.

Conventions of the embedding:
* Python floats are modelled as exact rationals (`ℚ`).
* All stochastic draws come from explicit oracles: `np.random.randint`
  batches consume successive values of an `Rng : Nat → Nat` stream (reduced
  modulo the exclusive upper bound), `np.random.uniform`, `np.random.normal`
  and `np.random.lognormal` draws come from `Nat → ℚ` streams, and the
  per-candidate acceptance outcomes of `gen_edr`'s rejection sampling (the
  comparison of `exp(-d/λ)` with a uniform variate, whose transcendental
  value the embedding does not reproduce) come from a Boolean oracle.
* A `graph_tool.Graph` is an ordered edge list with a directedness flag and a
  vertex count; `add_edge_list` creates any vertices it references, exactly
  as graph_tool does (vertices are never created ahead of time by the code).
* Python-level runtime failures (undefined names, bad numpy arguments,
  out-of-range indices, division by zero) are `Except.error` values of
  `PyErr`; the spec's error taxonomy (`InvalidParameter`, `InvalidInput`)
  is included among the constructors so that statements can compare what the
  code raises against what the spec demands.  Warnings a run would emit are
  collected in the result; the source contains no warning call, so that
  collection is empty on every path.
-/

set_option linter.unusedVariables false

namespace NNGT

/-- Python-level exception kinds relevant to this module, together with the
spec's `InvalidParameter` / `InvalidInput` taxonomy (§7 of the spec), so that
the error actually raised can be compared with the error the spec demands. -/
inductive PyErr where
  | nameError
  | valueError
  | indexError
  | keyError
  | zeroDivisionError
  | invalidParameter
  | invalidInput
deriving DecidableEq

/-- Warning kinds from the spec's taxonomy.  The source module never imports
or calls any warning machinery, so no run ever emits one. -/
inductive PyWarning where
  | convergenceWarning
deriving DecidableEq

instance exceptDecEq {ε α : Type} [DecidableEq ε] [DecidableEq α] :
    DecidableEq (Except ε α) := fun x y =>
  match x, y with
  | .error a, .error b =>
    if h : a = b then isTrue (by rw [h])
    else isFalse (by intro hc; cases hc; exact h rfl)
  | .error _, .ok _ => isFalse (by intro hc; cases hc)
  | .ok _, .error _ => isFalse (by intro hc; cases hc)
  | .ok a, .ok b =>
    if h : a = b then isTrue (by rw [h])
    else isFalse (by intro hc; cases hc; exact h rfl)

/-- An edge of the edge list: an ordered `(source, target)` pair. -/
abbrev Edge := Nat × Nat

/-- A `graph_tool.Graph` as the generation code observes it: directedness,
number of existing vertices, and the ordered edge list. -/
structure EGraph where
  directed : Bool
  numVertices : Nat
  edges : List Edge
deriving DecidableEq

/-- `g.num_edges()`. -/
def numEdges (g : EGraph) : Nat := g.edges.length

/-- Number of vertices `add_edge_list` guarantees to exist after adding this
batch: one past the largest vertex index mentioned. -/
def vertsNeeded (es : List Edge) : Nat :=
  es.foldr (fun e m => max (max (e.1 + 1) (e.2 + 1)) m) 0

/-- `g.add_edge_list(pairs)`: appends the pairs and creates any missing
vertices up to the largest index referenced. -/
def addEdges (g : EGraph) (es : List Edge) : EGraph :=
  { g with numVertices := max g.numVertices (vertsNeeded es),
           edges := g.edges ++ es }

/-- `graph_tool.stats.remove_self_loops`: drop every `(v, v)` edge. -/
def removeSelfLoops (g : EGraph) : EGraph :=
  { g with edges := g.edges.filter (fun e => decide (e.1 ≠ e.2)) }

/-- The identity of an edge for parallel-edge detection: ordered pair in a
directed graph, unordered pair in an undirected one. -/
def edgeKey (dir : Bool) (e : Edge) : Edge :=
  if dir then e else (min e.1 e.2, max e.1 e.2)

/-- First-occurrence deduplication with respect to a key, with an accumulator
of keys already seen. -/
def dedupBy (key : Edge → Edge) : List Edge → List Edge → List Edge
  | [], _ => []
  | e :: es, seen =>
    if key e ∈ seen then dedupBy key es seen
    else e :: dedupBy key es (key e :: seen)

/-- `graph_tool.stats.remove_parallel_edges`: keep one edge of each parallel
class (ordered pairs when directed, unordered when not). -/
def removeParallelEdges (g : EGraph) : EGraph :=
  { g with edges := dedupBy (edgeKey g.directed) g.edges [] }

/-- Self-loop removal followed by the conditional parallel-edge removal, as
every generation loop performs it (`remove_self_loops`; then
`remove_parallel_edges` unless `multigraph`). -/
def pyFilterEdges (multigraph : Bool) (g : EGraph) : EGraph :=
  let g2 := removeSelfLoops g
  if multigraph then g2 else removeParallelEdges g2

/-- Python's `int()` applied to a float: truncation toward zero. -/
def pyint (q : ℚ) : Int := if q < 0 then Int.ceil q else Int.floor q

/-- The oracle standing for numpy's global uniform-integer stream. -/
abbrev Rng := Nat → Nat

/-- Iteration cap shared by all generators (`n_MAXTESTS`, line 16). -/
def n_MAXTESTS : Nat := 10000

/-- Modelled from the spec: `_compute_edges`, called at
`graph_connectivity.py:58` and `:129`, is nowhere defined in the available
sources.  Per spec §4.3 step 1 it derives the target edge count from
whichever of {edges, average degree, density} is supplied (defaults `-1`
meaning "not given"): `edges` directly, else `avg_deg · nodes`, else
`density · nodes²`. -/
def compute_edges (nodes : Nat) (density : ℚ) (edges : Int) (avg_deg : ℚ) : Nat :=
  if 0 ≤ edges then edges.toNat
  else if 0 < avg_deg then (pyint (avg_deg * nodes)).toNat
  else (pyint (density * (nodes : ℚ) ^ 2)).toNat

/-- Lines 59-65: the first-phase target `pre_recip_edges`.  For an undirected
graph it is the unhalved `edges` value (the halving on line 62 happens after
`pre_recip_edges` was assigned on line 60); for a directed graph with
requested reciprocity it is `edges / (1 + r/(2-r))`, a Python float; the
float division raises `ZeroDivisionError` when `reciprocity = 2`. -/
def preTarget (edges0 : Nat) (reciprocity : ℚ) (directed : Bool) : Except PyErr ℚ :=
  if directed = false then .ok (edges0 : ℚ)
  else if 0 < reciprocity then
    if (2 : ℚ) - reciprocity = 0 then .error .zeroDivisionError
    else .ok ((edges0 : ℚ) / (1 + reciprocity / (2 - reciprocity)))
  else .ok (edges0 : ℚ)

/-- One iteration of the first sampling loop (lines 71-77):
`np.random.randint(0, nodes, (pre_recip_edges - num_current_edges, 2))`
(the float shape is truncated toward zero by numpy; a negative dimension or
a zero exclusive bound raises `ValueError`), `add_edge_list`, self-loop and
conditional parallel-edge removal. -/
def erPhase1Body (nodes : Nat) (pre : ℚ) (multigraph : Bool) (rng : Rng)
    (g : EGraph) (pos : Nat) : Except PyErr (EGraph × Nat) :=
  let kI := pyint (pre - (numEdges g : ℚ))
  if kI < 0 then .error .valueError
  else if nodes = 0 then .error .valueError
  else
    let k := kI.toNat
    let pairs := (List.range k).map
      (fun i => (rng (pos + 2 * i) % nodes, rng (pos + 2 * i + 1) % nodes))
    .ok (pyFilterEdges multigraph (addEdges g pairs), pos + 2 * k)

/-- The first sampling loop (line 70): `while num_current_edges !=
pre_recip_edges and num_test < n_MAXTESTS`.  The fuel argument is
`n_MAXTESTS - num_test`; the returned triple carries the graph, the leftover
fuel and the rng position. -/
def erPhase1 (nodes : Nat) (pre : ℚ) (multigraph : Bool) (rng : Rng) :
    Nat → EGraph → Nat → Except PyErr (EGraph × Nat × Nat)
  | 0, g, pos => .ok (g, 0, pos)
  | f + 1, g, pos =>
    if ((numEdges g : ℚ) = pre) then .ok (g, f + 1, pos)
    else
      match erPhase1Body nodes pre multigraph rng g pos with
      | .error e => .error e
      | .ok (g', pos') => erPhase1 nodes pre multigraph rng f g' pos'

/-- Insertion of an edge into a lexicographically sorted list. -/
def insertLex (e : Edge) : List Edge → List Edge
  | [] => [e]
  | f :: fs =>
    if e.1 < f.1 ∨ (e.1 = f.1 ∧ e.2 ≤ f.2) then e :: f :: fs
    else f :: insertLex e fs

/-- Lexicographic insertion sort. -/
def sortLex : List Edge → List Edge
  | [] => []
  | e :: es => insertLex e (sortLex es)

/-- `adjacency(graph_er).tocoo()` (line 79): the nonzero entries of the
adjacency matrix in row-major order, one per distinct edge (parallel edges
merge into a single entry of larger weight).  The entry for an edge is
recorded here as the `(source, target)` pair; graph_tool's orientation of
the matrix only determines which component is called `row` and which `col`,
which below merely swaps the two malformed pairs that line 83 adds. -/
def cooOf (g : EGraph) : List Edge :=
  sortLex (dedupBy (fun e => e) g.edges [])

/-- Fancy indexing `coo.col[ia_indices]` / `coo.row[ia_indices]`: an index
past the end of the coo arrays raises `IndexError`. -/
def lookupAll (coo : List Edge) : List Nat → Except PyErr (List Edge)
  | [] => .ok []
  | j :: js =>
    match coo.get? j with
    | none => .error .indexError
    | some e =>
      match lookupAll coo js with
      | .error er => .error er
      | .ok es => .ok (e :: es)

/-- One iteration of the reciprocity loop (lines 81-88).
`ia_indices = np.random.randint(0, num_current_edges, edges - num_current_edges)`
(raises `ValueError` when the current edge count is zero); then
`ia_edges = np.array([coo.col[ia_indices], coo.row[ia_indices]])`, a 2×k
array that is handed to `add_edge_list` without the `np.transpose` used at
lines 209 and 288 — so `add_edge_list` reads its two rows as two edge
descriptors, taking the first two entries of each row and ignoring the rest
(and raising `ValueError` when the rows are shorter than two entries). -/
def erPhase2Body (edgesTarget : Nat) (coo : List Edge) (multigraph : Bool)
    (rng : Rng) (g : EGraph) (pos : Nat) : Except PyErr (EGraph × Nat) :=
  if numEdges g = 0 then .error .valueError
  else
    match lookupAll coo ((List.range (edgesTarget - numEdges g)).map
        (fun i => rng (pos + i) % numEdges g)) with
    | .error e => .error e
    | .ok (e0 :: e1 :: _) =>
      .ok (pyFilterEdges multigraph (addEdges g [(e0.2, e1.2), (e0.1, e1.1)]),
           pos + (edgesTarget - numEdges g))
    | .ok _ => .error .valueError

/-- The reciprocity loop (line 80): `while num_current_edges != edges and
num_test < n_MAXTESTS`, sharing the iteration counter with the first loop
and keeping the coo arrays of the phase-1 adjacency fixed. -/
def erPhase2 (edgesTarget : Nat) (coo : List Edge) (multigraph : Bool) (rng : Rng) :
    Nat → EGraph → Nat → Except PyErr (EGraph × Nat × Nat)
  | 0, g, pos => .ok (g, 0, pos)
  | f + 1, g, pos =>
    if numEdges g = edgesTarget then .ok (g, f + 1, pos)
    else
      match erPhase2Body edgesTarget coo multigraph rng g pos with
      | .error e => .error e
      | .ok (g', pos') => erPhase2 edgesTarget coo multigraph rng f g' pos'

/-- Result of a generator call: the graph, the final `num_test` value, and
every warning the run emitted (the source never emits any). -/
structure GenResult where
  graph : EGraph
  numTest : Nat
  warnings : List PyWarning
deriving DecidableEq

/-- `erdos_renyi` (lines 24-91).  `np.random.seed()` only reseeds the oracle;
`reindex_edges()` (line 90) renumbers edge descriptors without changing the
edge list and has no observable effect here. -/
def erdos_renyi (nodes : Nat) (density : ℚ) (edgesArg : Int) (avg_deg : ℚ)
    (reciprocity : ℚ) (directed multigraph : Bool) (rng : Rng) :
    Except PyErr GenResult :=
  let edges0 := compute_edges nodes density edgesArg avg_deg
  let edges := if directed = false then edges0 / 2 else edges0
  match preTarget edges0 reciprocity directed with
  | .error e => .error e
  | .ok pre =>
    match erPhase1 nodes pre multigraph rng n_MAXTESTS ⟨directed, 0, []⟩ 0 with
    | .error e => .error e
    | .ok (g1, f1, pos1) =>
      if directed = true ∧ 0 < reciprocity then
        match erPhase2 edges (cooOf g1) multigraph rng f1 g1 pos1 with
        | .error e => .error e
        | .ok (g2, f2, _) => .ok ⟨g2, n_MAXTESTS - f2, []⟩
      else .ok ⟨g1, n_MAXTESTS - f1, []⟩

/-! ## Isolated-vertex pruning (lines 212-214 and 294-296) -/

/-- `degree_property_map("total")`: in-degree plus out-degree of a vertex. -/
def totalDegree (g : EGraph) (v : Nat) : Nat :=
  (g.edges.filter (fun e => decide (e.1 = v))).length +
    (g.edges.filter (fun e => decide (e.2 = v))).length

/-- The new index a surviving vertex receives after `remove_vertex` deletes
every vertex of total degree 0: the number of surviving vertices below it
(equivalently, the old index minus the number of removed vertices below it —
graph_tool shifts the remaining indices down, a stable compaction). -/
def keptBelow (g : EGraph) (v : Nat) : Nat :=
  ((List.range v).filter (fun u => decide (0 < totalDegree g u))).length

/-- Lines 212-214 / 294-296: `find_vertex(g, degree_total, 0)` followed by
`remove_vertex` of that list; surviving vertices are renumbered contiguously
and the edges follow them (no edge is lost: a removed vertex has none). -/
def prune_isolated (g : EGraph) : EGraph :=
  { directed := g.directed
    numVertices :=
      ((List.range g.numVertices).filter (fun u => decide (0 < totalDegree g u))).length
    edges := g.edges.map (fun e => (keptBelow g e.1, keptBelow g e.2)) }

/-! ## Edge-type generation (lines 219-225 and 300-307) -/

/-- Lines 302-306 (identical to 220-224): draw `nEdges` uniform(0,1) variates
`lstTypesGen`, mark edge `i` excitatory when its variate exceeds
`rInhibFrac` (`np.greater`), and store `2·excitatory − 1` as the type. -/
def generate_types (u : Nat → ℚ) (nEdges : Nat) (rInhibFrac : ℚ) : List Int :=
  (List.range nEdges).map
    (fun i => 2 * (if rInhibFrac < u i then 1 else 0) - 1)

/-! ## Weight strategies (lines 321-365) -/

/-- The `dicProperties` dictionary handed to `gen_edr` and the weight
strategies; the optional node/edge/density entries model `"Nodes" in
dicProperties.keys()` and friends (lines 245-259). -/
structure DicProperties where
  Rho : ℚ
  Lambda : ℚ
  NodesOpt : Option Nat
  EdgesOpt : Option Nat
  DensityOpt : Option ℚ
  InhibFrac : ℚ
  Weighted : Bool
  Distribution : String
  MeanExc : ℚ
  MeanInhib : ℚ
  VarExc : ℚ
  VarInhib : ℚ
  ScaleExc : ℚ
  LocationExc : ℚ
  ScaleInhib : ℚ
  LocationInhib : ℚ
  Min : ℚ
  Max : ℚ
deriving DecidableEq

/-- `gaussian_weights` (lines 321-329): `nExc` draws from
`Normal(MeanExc, VarExc)` and `nEdges - nExc` from `Normal(MeanInhib,
VarInhib)` (numpy rejects a negative scale with `ValueError`), both passed
through `np.absolute` and concatenated.  The oracle `w` supplies the
normal variates in order. -/
def gaussian_weights (graph : EGraph) (d : DicProperties) (nEdges nExc : Nat)
    (w : Nat → ℚ) : Except PyErr (List ℚ) :=
  let rMeanExc := d.MeanExc
  let rMeanInhib := d.MeanInhib
  let rVarExc := d.VarExc
  let rVarInhib := d.VarInhib
  if rVarExc < 0 ∨ rVarInhib < 0 then .error .valueError
  else
    let lstWeightsExc := (List.range nExc).map (fun i => w i)
    let lstWeightsInhib := (List.range (nEdges - nExc)).map (fun i => w (nExc + i))
    .ok (lstWeightsExc.map (fun x => |x|) ++ lstWeightsInhib.map (fun x => |x|))

/-- `lognormal_weights` (lines 331-339): line 334 binds `rScaleinHib`, but
line 337 reads the never-defined name `rScaleInhib`, so every call raises
`NameError` before producing any weight. -/
def lognormal_weights (graph : EGraph) (d : DicProperties) (nEdges nExc : Nat) :
    Except PyErr (List ℚ) :=
  let rScaleExc := d.ScaleExc
  let rLocationExc := d.LocationExc
  let rScaleinHib := d.ScaleInhib
  let rLocationInhib := d.LocationInhib
  .error .nameError

/-- `betweenness_correlated_weights` (lines 341-355): after reading `Min` and
`Max`, line 345 calls `betweenness`, a name the module never brings into
scope (the imported names of lines 6-12 have no `graph_tool.centrality`
entry), so every
call raises `NameError`; the affine rescale of `log10(betweenness)` on line
350 — whose denominator is zero whenever all betweenness values are equal —
is never reached, and no `InvalidInput` check exists anywhere. -/
def betweenness_correlated_weights (graph : EGraph) (d : DicProperties)
    (nEdges nExc : Nat) : Except PyErr (List ℚ) :=
  let lstWeights := List.replicate nEdges (0 : ℚ)
  let rMin := d.Min
  let rMax := d.Max
  .error .nameError

/-- `degree_correlated_weights` (lines 357-359): `np.repeat(1, nEdges)`. -/
def degree_correlated_weights (graph : EGraph) (d : DicProperties)
    (nEdges nExc : Nat) : Except PyErr (List ℚ) :=
  .ok (List.replicate nEdges (1 : ℚ))

/-- The `dicGenWeights` dispatch table (lines 362-365); an unknown key raises
`KeyError`. -/
def dicGenWeights (name : String) (graph : EGraph) (d : DicProperties)
    (nEdges nExc : Nat) (w : Nat → ℚ) : Except PyErr (List ℚ) :=
  if name = "Gaussian" then gaussian_weights graph d nEdges nExc w
  else if name = "Lognormal" then lognormal_weights graph d nEdges nExc
  else if name = "Betweenness" then betweenness_correlated_weights graph d nEdges nExc
  else if name = "Degree" then degree_correlated_weights graph d nEdges nExc
  else .error .keyError

/-! ## random_free_scale (lines 99-231) -/

/-- `random_free_scale` (lines 99-231): after `np.random.seed()` and the edge
derivation (lines 128-131), line 135 reads `dicProperties["Reciprocity"]`,
but no name `dicProperties` exists in the function (its parameters are the
keyword arguments of line 99) nor at module level, so every call — whatever
the exponents — raises `NameError` before any validation or sampling. -/
def random_free_scale (nodes : Nat) (density : ℚ) (edgesArg : Int) (avg_deg : ℚ)
    (reciprocity in_exp out_exp : ℚ) (directed multigraph : Bool) :
    Except PyErr EGraph :=
  let edges0 := compute_edges nodes density edgesArg avg_deg
  let edges := if directed = false then edges0 / 2 else edges0
  let graphFS : EGraph := ⟨true, 0, []⟩
  .error .nameError

/-! ## gen_edr (lines 237-313) -/

/-- Lines 245-259: resolve `(nNodes, nEdges, rDens)` from whichever of the
`Nodes` / `Edges` / `Density` keys are present.  `nEdges / float(nNodes**2)`
(line 249) raises `ZeroDivisionError` when `nNodes = 0`; a missing key
raises `KeyError`; `int(np.floor(np.sqrt(nEdges/rDens)))` (line 258) equals
the integer square root of the floor of the quotient (for a nonnegative
quotient, `⌊√q⌋ = ⌊√⌊q⌋⌋`). -/
def gen_edr_params (d : DicProperties) : Except PyErr (Nat × Nat × ℚ) :=
  match d.NodesOpt with
  | some nNodes =>
    match d.EdgesOpt with
    | some nEdges =>
      if nNodes = 0 then .error .zeroDivisionError
      else .ok (nNodes, nEdges, (nEdges : ℚ) / ((nNodes : ℚ) ^ 2))
    | none =>
      match d.DensityOpt with
      | some rDens => .ok (nNodes, (pyint (rDens * (nNodes : ℚ) ^ 2)).toNat, rDens)
      | none => .error .keyError
  | none =>
    match d.EdgesOpt, d.DensityOpt with
    | some nEdges, some rDens =>
      if rDens = 0 then .error .zeroDivisionError
      else .ok (Nat.sqrt (pyint ((nEdges : ℚ) / rDens)).toNat, nEdges, rDens)
    | _, _ => .error .keyError

/-- Line 265: `numDesiredEdges = int(float(rDens*nNodes**2))`. -/
def numDesiredEdges (rDens : ℚ) (nNodes : Nat) : Nat :=
  (pyint (rDens * (nNodes : ℚ) ^ 2)).toNat

/-- Squared Euclidean distance between two points. -/
def sqDist (p q : ℚ × ℚ) : ℚ := (p.1 - q.1) ^ 2 + (p.2 - q.2) ^ 2

/-- `graph_tool.generation.geometric_graph(lstPos, r)`: the undirected graph
on the given points joining every pair at Euclidean distance at most `r`
(compared through squares, which is exact). -/
def geometric_graph (pts : List (ℚ × ℚ)) (r : ℚ) : EGraph :=
  let n := pts.length
  { directed := false
    numVertices := n
    edges := ((List.range n).map (fun i =>
        ((List.range n).filterMap (fun j =>
          if i < j ∧ sqDist (pts.getD i (0, 0)) (pts.getD j (0, 0)) ≤ r ^ 2
          then some (i, j) else none)))).flatten }

/-- One iteration of `gen_edr`'s candidate loop (lines 273-292).  The oracle
`cand` supplies, for each of the `nTests` candidates of this round (line 273
sizes the batch from the deficit and `exp(avg_distance/λ)`, a transcendental
the embedding leaves inside the oracle), the sampled `(src, dst)` pair and
the outcome of the acceptance comparison `exp(-dist/λ) > uniform()`.  An
accepted batch that would overshoot is truncated to the remaining deficit
(lines 281-284) before `add_edge_list`; then self-loops and parallel edges
are removed unconditionally (lines 290-291). -/
def gen_edr_body (numDesired : Nat) (cand : List (Edge × Bool)) (g : EGraph) :
    EGraph :=
  let accepted := cand.filterMap (fun p => if p.2 then some p.1 else none)
  let nEdges := accepted.length
  let toAdd :=
    if numDesired < numEdges g + nEdges then accepted.take (numDesired - numEdges g)
    else accepted
  removeParallelEdges (removeSelfLoops (addEdges g toAdd))

/-- Line 272: `while nEdgesTot < numDesiredEdges and numTest < n_MAXTESTS`.
Returns the graph and the final `numTest`. -/
def gen_edr_loop (numDesired : Nat) (cand : Nat → List (Edge × Bool)) :
    Nat → EGraph → Nat → EGraph × Nat
  | 0, g, t => (g, t)
  | f + 1, g, t =>
    if numEdges g < numDesired then
      gen_edr_loop numDesired cand f (gen_edr_body numDesired (cand t) g) (t + 1)
    else (g, t)

/-- Result of `gen_edr`: pruned graph, per-edge types, optional weights, the
final `numTest`, and the warnings the run emitted (none exist in the code). -/
structure EdrResult where
  graph : EGraph
  types : List Int
  weights : Option (List ℚ)
  numTest : Nat
  warnings : List PyWarning
deriving DecidableEq

/-- `gen_edr` (lines 237-313): parameter resolution, uniform positions (the
oracle `posO` supplies the draws in `[0, L]²`), the radius-0 geometric seed
graph made directed, the capped candidate loop, isolated-vertex pruning,
the density recomputation `nEdges / float(nNodes**2)` of line 299 (which
raises `ZeroDivisionError` when every node was pruned), type generation and
the optional weight generation. -/
def gen_edr (d : DicProperties) (posO : Nat → ℚ × ℚ)
    (cand : Nat → List (Edge × Bool)) (typeO : Nat → ℚ) (w : Nat → ℚ) :
    Except PyErr EdrResult :=
  match gen_edr_params d with
  | .error e => .error e
  | .ok (nNodes, _, rDens) =>
    let lstPos := (List.range nNodes).map posO
    let graphEDR := { geometric_graph lstPos 0 with directed := true }
    let res := gen_edr_loop (numDesiredEdges rDens nNodes) cand n_MAXTESTS graphEDR 0
    let g2 := prune_isolated res.1
    if g2.numVertices = 0 then .error .zeroDivisionError
    else
      let types := generate_types typeO (numEdges g2) d.InhibFrac
      let nExc := types.countP (fun t => decide (t = 1))
      if d.Weighted then
        match dicGenWeights d.Distribution g2 d (numEdges g2) nExc w with
        | .error e => .error e
        | .ok ws => .ok ⟨g2, types, some ws, res.2, []⟩
      else .ok ⟨g2, types, none, res.2, []⟩

/-! ## Basic predicates on graphs -/

/-- The graph has no self-loop. -/
def NoSelfLoops (g : EGraph) : Prop := ∀ e ∈ g.edges, e.1 ≠ e.2

/-- The graph has no parallel edges: the edge keys (ordered pairs when
directed, unordered when not) are pairwise distinct. -/
def NoParallel (g : EGraph) : Prop := (g.edges.map (edgeKey g.directed)).Nodup

/-- The invariant every sampling round re-establishes: self-loop-free, and
parallel-edge-free unless multigraph mode is on. -/
def Filtered (multigraph : Bool) (g : EGraph) : Prop :=
  NoSelfLoops g ∧ (multigraph = false → NoParallel g)

/-- Every edge endpoint is an existing vertex. -/
def Wf (g : EGraph) : Prop :=
  ∀ e ∈ g.edges, e.1 < g.numVertices ∧ e.2 < g.numVertices

instance (g : EGraph) : Decidable (Wf g) := by unfold Wf; infer_instance

/-! ## Lemmas about the edge-set operations -/

theorem dedupBy_sublist (key : Edge → Edge) :
    ∀ (l seen : List Edge), List.Sublist (dedupBy key l seen) l := by
  intro l
  induction l with
  | nil => intro seen; simp [dedupBy]
  | cons e es ih =>
    intro seen
    by_cases h : key e ∈ seen
    · simpa [dedupBy, h] using List.Sublist.cons e (ih seen)
    · simpa [dedupBy, h] using List.Sublist.cons₂ e (ih (key e :: seen))

theorem dedupBy_length_le (key : Edge → Edge) (l seen : List Edge) :
    (dedupBy key l seen).length ≤ l.length :=
  (dedupBy_sublist key l seen).length_le

theorem dedupBy_keys (key : Edge → Edge) :
    ∀ (l seen : List Edge),
      ((dedupBy key l seen).map key).Nodup ∧
        ∀ e ∈ dedupBy key l seen, key e ∉ seen := by
  intro l
  induction l with
  | nil => intro seen; simp [dedupBy]
  | cons e es ih =>
    intro seen
    by_cases h : key e ∈ seen
    · simpa [dedupBy, h] using ih seen
    · have ih' := ih (key e :: seen)
      refine ⟨?_, ?_⟩
      · simp only [dedupBy, h, if_false, List.map_cons, List.nodup_cons]
        refine ⟨?_, ih'.1⟩
        intro hmem
        rcases List.mem_map.mp hmem with ⟨e', he', hkey⟩
        exact (ih'.2 e' he') (by simp [hkey])
      · intro e' he'
        simp only [dedupBy, h, if_false, List.mem_cons] at he'
        rcases he' with rfl | he'
        · exact h
        · intro hc
          exact (ih'.2 e' he') (List.mem_cons_of_mem _ hc)

theorem numEdges_removeSelfLoops_le (g : EGraph) :
    numEdges (removeSelfLoops g) ≤ numEdges g :=
  List.length_filter_le _ _

theorem noSelfLoops_removeSelfLoops (g : EGraph) :
    NoSelfLoops (removeSelfLoops g) := by
  intro e he
  simp only [removeSelfLoops, List.mem_filter, decide_eq_true_eq] at he
  exact he.2

theorem mem_removeParallelEdges (g : EGraph) {e : Edge}
    (he : e ∈ (removeParallelEdges g).edges) : e ∈ g.edges :=
  (dedupBy_sublist (edgeKey g.directed) g.edges []).mem he

theorem noParallel_removeParallelEdges (g : EGraph) :
    NoParallel (removeParallelEdges g) := by
  have h1 := (dedupBy_keys (edgeKey g.directed) g.edges []).1
  simpa [NoParallel, removeParallelEdges] using h1

theorem pyFilterEdges_spec (multigraph : Bool) (g : EGraph) :
    Filtered multigraph (pyFilterEdges multigraph g) ∧
      numEdges (pyFilterEdges multigraph g) ≤ numEdges g ∧
      (pyFilterEdges multigraph g).directed = g.directed := by
  cases multigraph with
  | true =>
    have hred : pyFilterEdges true g = removeSelfLoops g := rfl
    rw [hred]
    exact ⟨⟨noSelfLoops_removeSelfLoops g, fun hf => by cases hf⟩,
      numEdges_removeSelfLoops_le g, rfl⟩
  | false =>
    have hred : pyFilterEdges false g = removeParallelEdges (removeSelfLoops g) := rfl
    rw [hred]
    refine ⟨⟨?_, fun _ => noParallel_removeParallelEdges (removeSelfLoops g)⟩, ?_, rfl⟩
    · intro e he
      exact noSelfLoops_removeSelfLoops g e (mem_removeParallelEdges _ he)
    · exact le_trans (dedupBy_length_le _ _ _) (numEdges_removeSelfLoops_le g)

theorem numEdges_addEdges (g : EGraph) (es : List Edge) :
    numEdges (addEdges g es) = numEdges g + es.length := by
  simp [addEdges, numEdges]

/-! ## Counting facts about `pyint` and the sampling batches -/

theorem pyint_toNat_le {q : ℚ} {n : ℕ} (h : q ≤ (n : ℚ)) : (pyint q).toNat ≤ n := by
  by_cases hq : q < 0
  · have h1 : ⌈q⌉ ≤ (0 : ℤ) := Int.ceil_le.mpr (by push_cast; linarith)
    unfold pyint
    rw [if_pos hq]
    omega
  · have h1 : ⌊q⌋ ≤ ⌊(n : ℚ)⌋ := Int.floor_le_floor h
    rw [Int.floor_natCast] at h1
    unfold pyint
    rw [if_neg hq]
    omega

/-- The batch size of a phase-1 round never pushes the pre-filter edge count
past `int(pre_recip_edges)` (nor below the incoming count). -/
theorem batch_le {cur : ℕ} {pre : ℚ}
    (h : ¬ pyint (pre - (cur : ℚ)) < 0) :
    cur + (pyint (pre - (cur : ℚ))).toNat ≤ max cur (pyint pre).toNat := by
  by_cases hd : pre - (cur : ℚ) < 0
  · have h1 : ⌈pre - (cur : ℚ)⌉ ≤ (0 : ℤ) := Int.ceil_le.mpr (by push_cast; linarith)
    have h2 : pyint (pre - (cur : ℚ)) = ⌈pre - (cur : ℚ)⌉ := by
      unfold pyint; rw [if_pos hd]
    rw [h2] at h ⊢
    have h3 : (⌈pre - (cur : ℚ)⌉).toNat = 0 := by omega
    rw [h3]
    simp only [Nat.add_zero]
    exact le_max_left cur (pyint pre).toNat
  · have hcur : (cur : ℚ) ≤ pre := by
      have := not_lt.mp hd; linarith
    have hpre0 : ¬ pre < 0 := by
      have h0 : (0 : ℚ) ≤ (cur : ℚ) := Nat.cast_nonneg cur
      intro hc; linarith
    have e1 : pyint (pre - (cur : ℚ)) = ⌊pre⌋ - cur := by
      unfold pyint; rw [if_neg hd, Int.floor_sub_nat]
    have e2 : pyint pre = ⌊pre⌋ := by
      unfold pyint; rw [if_neg hpre0]
    have h3 : (cur : ℤ) ≤ ⌊pre⌋ := Int.le_floor.mpr (by exact_mod_cast hcur)
    rw [e1, e2]
    have h4 : cur + (⌊pre⌋ - (cur : ℤ)).toNat = (⌊pre⌋).toNat := by omega
    rw [h4]
    exact le_max_right _ _

/-! ## Invariants of the erdos_renyi sampling loops -/

theorem erPhase1Body_ok {nodes : ℕ} {pre : ℚ} {multigraph : Bool} {rng : Rng}
    {g : EGraph} {pos : ℕ} {g' : EGraph} {pos' : ℕ}
    (h : erPhase1Body nodes pre multigraph rng g pos = .ok (g', pos')) :
    Filtered multigraph g' ∧ numEdges g' ≤ max (numEdges g) (pyint pre).toNat := by
  unfold erPhase1Body at h
  by_cases hk : pyint (pre - (numEdges g : ℚ)) < 0
  · rw [if_pos hk] at h; cases h
  · rw [if_neg hk] at h
    by_cases hn : nodes = 0
    · rw [if_pos hn] at h; cases h
    · rw [if_neg hn] at h
      have hg : g' = pyFilterEdges multigraph (addEdges g
          ((List.range (pyint (pre - (numEdges g : ℚ))).toNat).map
            (fun i => (rng (pos + 2 * i) % nodes, rng (pos + 2 * i + 1) % nodes)))) := by
        cases h; rfl
      subst hg
      obtain ⟨hfil, hle, -⟩ := pyFilterEdges_spec multigraph _
      refine ⟨hfil, le_trans hle ?_⟩
      rw [numEdges_addEdges]
      simpa using batch_le hk

theorem erPhase1_ok {nodes : ℕ} {pre : ℚ} {multigraph : Bool} {rng : Rng} :
    ∀ (fuel : ℕ) (g : EGraph) (pos : ℕ) {g' : EGraph} {f' pos' : ℕ},
      erPhase1 nodes pre multigraph rng fuel g pos = .ok (g', f', pos') →
      Filtered multigraph g → numEdges g ≤ (pyint pre).toNat →
      Filtered multigraph g' ∧ numEdges g' ≤ (pyint pre).toNat ∧ f' ≤ fuel ∧
        (0 < f' → (numEdges g' : ℚ) = pre) := by
  intro fuel
  induction fuel with
  | zero =>
    intro g pos g' f' pos' h hfil hle
    unfold erPhase1 at h
    cases h
    exact ⟨hfil, hle, le_refl 0, fun h0 => absurd h0 (by omega)⟩
  | succ f ih =>
    intro g pos g' f' pos' h hfil hle
    unfold erPhase1 at h
    by_cases heq : (numEdges g : ℚ) = pre
    · rw [if_pos heq] at h
      cases h
      exact ⟨hfil, hle, le_refl _, fun _ => heq⟩
    · rw [if_neg heq] at h
      cases hbody : erPhase1Body nodes pre multigraph rng g pos with
      | error e => rw [hbody] at h; cases h
      | ok gp =>
        rw [hbody] at h
        obtain ⟨hfil1, hle1⟩ := erPhase1Body_ok hbody
        have hle1' : numEdges gp.1 ≤ (pyint pre).toNat := by
          exact le_trans hle1 (by omega)
        obtain ⟨a, b, c, d⟩ := ih gp.1 gp.2 h hfil1 hle1'
        exact ⟨a, b, by omega, d⟩

theorem lookupAll_length {coo : List Edge} :
    ∀ {js : List Nat} {es : List Edge}, lookupAll coo js = .ok es →
      es.length = js.length := by
  intro js
  induction js with
  | nil => intro es h; unfold lookupAll at h; cases h; rfl
  | cons j js ih =>
    intro es h
    unfold lookupAll at h
    cases hget : coo.get? j with
    | none => rw [hget] at h; cases h
    | some e =>
      rw [hget] at h
      cases hrest : lookupAll coo js with
      | error er => rw [hrest] at h; cases h
      | ok es' =>
        rw [hrest] at h
        cases h
        simp [ih hrest]

theorem erPhase2Body_ok {target : ℕ} {coo : List Edge} {multigraph : Bool}
    {rng : Rng} {g : EGraph} {pos : ℕ} {g' : EGraph} {pos' : ℕ}
    (h : erPhase2Body target coo multigraph rng g pos = .ok (g', pos')) :
    Filtered multigraph g' ∧ numEdges g' ≤ numEdges g + 2 ∧
      numEdges g + 2 ≤ target := by
  unfold erPhase2Body at h
  by_cases hc : numEdges g = 0
  · rw [if_pos hc] at h; cases h
  · rw [if_neg hc] at h
    cases hlook : lookupAll coo ((List.range (target - numEdges g)).map
        (fun i => rng (pos + i) % numEdges g)) with
    | error e => rw [hlook] at h; cases h
    | ok colRow =>
      rw [hlook] at h
      have hlen : colRow.length = target - numEdges g := by
        have hl := lookupAll_length hlook
        simpa using hl
      cases colRow with
      | nil => cases h
      | cons e0 rest =>
        cases rest with
        | nil => cases h
        | cons e1 rest' =>
          have hg : g' = pyFilterEdges multigraph
              (addEdges g [(e0.2, e1.2), (e0.1, e1.1)]) := by
            cases h; rfl
          subst hg
          obtain ⟨hfil, hle, -⟩ := pyFilterEdges_spec multigraph
            (addEdges g [(e0.2, e1.2), (e0.1, e1.1)])
          have htar : numEdges g + 2 ≤ target := by
            simp only [List.length_cons] at hlen
            omega
          refine ⟨hfil, le_trans hle ?_, htar⟩
          rw [numEdges_addEdges]
          simp

theorem erPhase2_ok {target : ℕ} {coo : List Edge} {multigraph : Bool} {rng : Rng} :
    ∀ (fuel : ℕ) (g : EGraph) (pos : ℕ) {g' : EGraph} {f' pos' : ℕ},
      erPhase2 target coo multigraph rng fuel g pos = .ok (g', f', pos') →
      Filtered multigraph g → numEdges g ≤ target →
      Filtered multigraph g' ∧ numEdges g' ≤ target ∧ f' ≤ fuel ∧
        (0 < f' → numEdges g' = target) := by
  intro fuel
  induction fuel with
  | zero =>
    intro g pos g' f' pos' h hfil hle
    unfold erPhase2 at h
    cases h
    exact ⟨hfil, hle, le_refl 0, fun h0 => absurd h0 (by omega)⟩
  | succ f ih =>
    intro g pos g' f' pos' h hfil hle
    unfold erPhase2 at h
    by_cases heq : numEdges g = target
    · rw [if_pos heq] at h
      cases h
      exact ⟨hfil, hle, le_refl _, fun _ => heq⟩
    · rw [if_neg heq] at h
      cases hbody : erPhase2Body target coo multigraph rng g pos with
      | error e => rw [hbody] at h; cases h
      | ok gp =>
        rw [hbody] at h
        obtain ⟨hfil1, hle1, htar⟩ := erPhase2Body_ok hbody
        obtain ⟨a, b, c, d⟩ := ih gp.1 gp.2 h hfil1 (by omega)
        exact ⟨a, b, by omega, d⟩

/-- The first-phase target is at most the derived edge count, and away from
the reciprocity branch it is exactly that count. -/
theorem preTarget_ok {edges0 : ℕ} {r : ℚ} {directed : Bool} {pre : ℚ}
    (h : preTarget edges0 r directed = .ok pre) :
    (pyint pre).toNat ≤ edges0 ∧
      (¬ (directed = true ∧ 0 < r) → pre = (edges0 : ℚ)) := by
  unfold preTarget at h
  by_cases hdir : directed = false
  · rw [if_pos hdir] at h
    cases h
    constructor
    · apply pyint_toNat_le; exact le_refl _
    · intro _; rfl
  · rw [if_neg hdir] at h
    by_cases hr : 0 < r
    · rw [if_pos hr] at h
      by_cases h2 : (2 : ℚ) - r = 0
      · rw [if_pos h2] at h; cases h
      · rw [if_neg h2] at h
        cases h
        constructor
        · apply pyint_toNat_le
          have hrw : (edges0 : ℚ) / (1 + r / (2 - r)) = (edges0 : ℚ) * (2 - r) / 2 := by
            field_simp
          rw [hrw]
          have h0 : (0 : ℚ) ≤ (edges0 : ℚ) := Nat.cast_nonneg _
          nlinarith
        · intro hcon
          exact absurd ⟨by revert hdir; cases directed <;> simp, hr⟩ hcon
    · rw [if_neg hr] at h
      cases h
      exact ⟨pyint_toNat_le (le_refl _), fun _ => rfl⟩

/-- C1.  For every node count and derived target edge count, a successful
`erdos_renyi` run returns a graph with no self-loops, with no parallel edges
when `multigraph = false`, with at most `E = _compute_edges(...)` edges, and
with exactly `E` edges whenever the 10000-iteration cap was not exhausted. -/
theorem erdos_renyi_filtered (nodes : ℕ) (density : ℚ) (edgesArg : ℤ)
    (avg_deg reciprocity : ℚ) (directed multigraph : Bool) (rng : Rng)
    (out : GenResult)
    (h : erdos_renyi nodes density edgesArg avg_deg reciprocity directed
      multigraph rng = .ok out) :
    NoSelfLoops out.graph ∧
      (multigraph = false → NoParallel out.graph) ∧
      numEdges out.graph ≤ compute_edges nodes density edgesArg avg_deg ∧
      (out.numTest < n_MAXTESTS →
        numEdges out.graph = compute_edges nodes density edgesArg avg_deg) := by
  have hinit : Filtered multigraph (⟨directed, 0, []⟩ : EGraph) := by
    refine ⟨?_, ?_⟩
    · intro e he; cases he
    · intro _; simp [NoParallel]
  simp only [erdos_renyi] at h
  split at h
  · cases h
  next pre hpre =>
    obtain ⟨hpleN, hpexact⟩ := preTarget_ok hpre
    split at h
    · cases h
    next g1 f1 pos1 hph1 =>
      obtain ⟨hfil1, hle1, hf1, hexact1⟩ :=
        erPhase1_ok n_MAXTESTS ⟨directed, 0, []⟩ 0 hph1 hinit (Nat.zero_le _)
      split at h
      next hcond =>
        split at h
        · cases h
        next g2 f2 pos2 hph2 =>
          rw [hcond.1] at hph2
          rw [if_neg (by simp : ¬(true = false))] at hph2
          cases h
          obtain ⟨hfil2, hle2, hf2, hexact2⟩ :=
            erPhase2_ok f1 g1 pos1 hph2 hfil1 (le_trans hle1 hpleN)
          refine ⟨hfil2.1, hfil2.2, hle2, ?_⟩
          intro hlt
          have hlt' : n_MAXTESTS - f2 < n_MAXTESTS := hlt
          exact hexact2 (by omega)
      next hcond =>
        cases h
        refine ⟨hfil1.1, hfil1.2, le_trans hle1 hpleN, ?_⟩
        intro hlt
        have hlt' : n_MAXTESTS - f1 < n_MAXTESTS := hlt
        have hq := hexact1 (by omega)
        rw [hpexact hcond] at hq
        exact_mod_cast hq

/-- Witness for C1: a concrete successful run (2 nodes, target 1 edge, no
reciprocity) hits the target in one round with a clean graph. -/
theorem erdos_renyi_filtered_witness :
    NoSelfLoops (⟨true, 2, [(0, 1)]⟩ : EGraph) ∧
      (false = false → NoParallel (⟨true, 2, [(0, 1)]⟩ : EGraph)) ∧
      numEdges (⟨true, 2, [(0, 1)]⟩ : EGraph) ≤ compute_edges 2 (1 / 10) 1 (-1) ∧
      (1 < n_MAXTESTS →
        numEdges (⟨true, 2, [(0, 1)]⟩ : EGraph) = compute_edges 2 (1 / 10) 1 (-1)) :=
  erdos_renyi_filtered 2 (1 / 10) 1 (-1) (-1) true false (fun n => n)
    ⟨⟨true, 2, [(0, 1)]⟩, 1, []⟩ (by with_unfolding_all decide)

/-- C2.  Concrete run of the reciprocity phase: 4 nodes, target `E = 4`,
`reciprocity = 1`, the oracle being the identity stream.  Phase 1 cleanly
produces the `base = E/(1+f) = 2` edges `(0,1)` and `(2,3)`; the spec then
demands reversed copies of sampled existing edges — here necessarily among
`(1,0)` and `(3,2)` — but the untransposed `add_edge_list` call of line 83
adds `(1,3)` and `(0,2)` instead, the reverse of no existing edge, so the
returned graph contains no reciprocal pair at all despite `r = 1`. -/
theorem erdos_renyi_untransposed_phase2 :
    erdos_renyi 4 (1 / 10) 4 (-1) 1 true false (fun n => n) =
      .ok ⟨⟨true, 4, [(0, 1), (2, 3), (1, 3), (0, 2)]⟩, 2, []⟩ ∧
      (1, 3) ∈ [(0, 1), (2, 3), (1, 3), (0, 2)] ∧
      (3, 1) ∉ [(0, 1), (2, 3)] ∧ (2, 0) ∉ [(0, 1), (2, 3)] ∧
      (1, 0) ∉ [(0, 1), (2, 3), (1, 3), (0, 2)] ∧
      (3, 2) ∉ [(0, 1), (2, 3), (1, 3), (0, 2)] := by
  with_unfolding_all decide

/-- C5.  Concrete run: `erdos_renyi` is asked for 3 nodes but the single
sampled edge `(0, 1)` only makes `add_edge_list` create vertices 0 and 1, so
the returned graph has 2 vertices, not the requested 3 — the function never
instantiates the `nodes` vertices its docstring promises. -/
theorem erdos_renyi_wrong_node_count :
    erdos_renyi 3 (1 / 10) 1 (-1) (-1) true false (fun n => n) =
      .ok ⟨⟨true, 2, [(0, 1)]⟩, 1, []⟩ ∧ (2 : ℕ) ≠ 3 := by
  with_unfolding_all decide

/-- On one node every sampled candidate is the self-loop `(0,0)`, so each
round of the first loop adds and immediately deletes it: the graph stays
empty for the whole fuel budget. -/
theorem erPhase1_spin : ∀ (fuel pos : ℕ),
    erPhase1 1 1 false (fun _ => 0) fuel ⟨true, 1, []⟩ pos =
      .ok (⟨true, 1, []⟩, 0, pos + 2 * fuel) := by
  intro fuel
  induction fuel with
  | zero =>
    intro pos
    rw [erPhase1]
    norm_num
  | succ f ih =>
    intro pos
    have hguard : ¬((numEdges (⟨true, 1, []⟩ : EGraph) : ℚ) = 1) := by
      norm_num [numEdges]
    have hbody : erPhase1Body 1 1 false (fun _ => 0) ⟨true, 1, []⟩ pos =
        .ok (⟨true, 1, []⟩, pos + 2) := by
      with_unfolding_all rfl
    rw [erPhase1, if_neg hguard]
    simp only [hbody]
    rw [ih (pos + 2)]
    have harith : pos + 2 + 2 * f = pos + 2 * (f + 1) := by ring
    rw [harith]

/-- The first iteration on the fresh empty graph: vertex 0 gets created by
`add_edge_list`, the self-loop is removed, and the loop continues. -/
theorem erPhase1_first (f pos : ℕ) :
    erPhase1 1 1 false (fun _ => 0) (f + 1) ⟨true, 0, []⟩ pos =
      erPhase1 1 1 false (fun _ => 0) f ⟨true, 1, []⟩ (pos + 2) := by
  have hguard : ¬((numEdges (⟨true, 0, []⟩ : EGraph) : ℚ) = 1) := by
    norm_num [numEdges]
  have hbody : erPhase1Body 1 1 false (fun _ => 0) ⟨true, 0, []⟩ pos =
      .ok (⟨true, 1, []⟩, pos + 2) := by
    with_unfolding_all rfl
  rw [erPhase1, if_neg hguard]
  simp only [hbody]

/-- How a directed, reciprocity-free `erdos_renyi` run assembles its result
from the phase-1 outcome (the reciprocity phase is skipped). -/
theorem erdos_renyi_phase1_shape {nodes : ℕ} {density : ℚ} {edgesArg : ℤ}
    {avg_deg reciprocity pre : ℚ} {multigraph : Bool} {rng : Rng}
    {g1 : EGraph} {f1 pos1 : ℕ}
    (hpre : preTarget (compute_edges nodes density edgesArg avg_deg)
      reciprocity true = .ok pre)
    (hph : erPhase1 nodes pre multigraph rng n_MAXTESTS ⟨true, 0, []⟩ 0 =
      .ok (g1, f1, pos1))
    (hr : ¬ (0 : ℚ) < reciprocity) :
    erdos_renyi nodes density edgesArg avg_deg reciprocity true multigraph rng =
      .ok ⟨g1, n_MAXTESTS - f1, []⟩ := by
  have hcond : ¬ (True ∧ (0 : ℚ) < reciprocity) := fun hc => hr hc.2
  simp only [erdos_renyi, hpre, hph]
  rw [if_neg hcond]

/-- C3 counterexample.  A concrete run (target 1 edge on a single node) that
exhausts all 10000 iterations, returns with a shortfall of one edge — and
emits nothing: the warning list of the run is empty, where the claim demands
a `ConvergenceWarning` reporting the shortfall (no warning machinery exists
anywhere in the module). -/
theorem erdos_renyi_cap_exhausted_silent :
    erdos_renyi 1 (1 / 10) 1 (-1) (-1) true false (fun _ => 0) =
      .ok ⟨⟨true, 1, []⟩, n_MAXTESTS, []⟩ ∧
      numEdges (⟨true, 1, []⟩ : EGraph) < compute_edges 1 (1 / 10) 1 (-1) ∧
      PyWarning.convergenceWarning ∉ ([] : List PyWarning) := by
  refine ⟨?_, by with_unfolding_all decide, by simp⟩
  have hpt : preTarget (compute_edges 1 (1 / 10) 1 (-1)) (-1) true = .ok 1 := by
    with_unfolding_all decide
  have h1 : n_MAXTESTS = 9999 + 1 := by norm_num [n_MAXTESTS]
  have hph : erPhase1 1 1 false (fun _ => 0) n_MAXTESTS ⟨true, 0, []⟩ 0 =
      .ok (⟨true, 1, []⟩, 0, 20000) := by
    rw [h1, erPhase1_first 9999 0, erPhase1_spin 9999 2]
  have hmain := erdos_renyi_phase1_shape hpt hph (by norm_num)
  rw [hmain]
  norm_num [n_MAXTESTS]

/-- C3 amended.  Whichever way a generator run ends — the iteration cap
exhausted or not — the returned result carries no warning at all: the module
has no warning machinery, so a cap-exhausted run returns its best-effort
graph silently. -/
theorem generators_emit_no_warning :
    (∀ (nodes : ℕ) (density : ℚ) (edgesArg : ℤ) (avg_deg reciprocity : ℚ)
        (directed multigraph : Bool) (rng : Rng) (out : GenResult),
        erdos_renyi nodes density edgesArg avg_deg reciprocity directed
          multigraph rng = .ok out → out.warnings = []) ∧
    (∀ (d : DicProperties) (posO : Nat → ℚ × ℚ)
        (cand : Nat → List (Edge × Bool)) (typeO wO : Nat → ℚ)
        (out : EdrResult),
        gen_edr d posO cand typeO wO = .ok out → out.warnings = []) := by
  constructor
  · intro nodes density edgesArg avg_deg reciprocity directed multigraph rng out h
    simp only [erdos_renyi] at h
    split at h
    · cases h
    · split at h
      · cases h
      · split at h
        · split at h
          · cases h
          · cases h; rfl
        · cases h; rfl
  · intro d posO cand typeO wO out h
    simp only [gen_edr] at h
    split at h
    · cases h
    · split at h
      · cases h
      · split at h
        · split at h
          · cases h
          · cases h; rfl
        · cases h; rfl

/-- Witness for the amended C3: a concrete successful run's warning list is
empty. -/
theorem generators_emit_no_warning_witness :
    (⟨⟨true, 2, [(0, 1)]⟩, 1, []⟩ : GenResult).warnings = [] :=
  generators_emit_no_warning.1 2 (1 / 10) 1 (-1) (-1) true false (fun n => n)
    ⟨⟨true, 2, [(0, 1)]⟩, 1, []⟩ (by with_unfolding_all decide)

/-- A fully populated `dicProperties` value for concrete evaluations; fields
in declaration order: Rho, Lambda, NodesOpt, EdgesOpt, DensityOpt,
InhibFrac, Weighted, Distribution, MeanExc, MeanInhib, VarExc, VarInhib,
ScaleExc, LocationExc, ScaleInhib, LocationInhib, Min, Max. -/
def sampleDic : DicProperties :=
  ⟨1, 1, some 2, some 1, none, 1 / 2, true, "Lognormal",
    1, 1, 1, 1, 1, 0, 1, 0, 0, 1⟩

/-- C6.  The edge labeling of lines 302-306 (and 220-224) consumes one
uniform variate per edge, labels edge `i` inhibitory (−1) exactly when its
variate is at most the inhibitory fraction and excitatory (+1) otherwise,
and every entry of the type vector is `+1` or `−1`. -/
theorem generate_types_spec (u : Nat → ℚ) (p : ℚ) (n i : ℕ) (h : i < n) :
    (generate_types u n p).length = n ∧
      ((generate_types u n p).getD i 0 = -1 ↔ u i ≤ p) ∧
      ((generate_types u n p).getD i 0 = 1 ∨
        (generate_types u n p).getD i 0 = -1) := by
  have hlen : (generate_types u n p).length = n := by
    simp [generate_types]
  have hval : (generate_types u n p).getD i 0 =
      2 * (if p < u i then 1 else 0) - 1 := by
    simp [generate_types, List.getD, List.getElem?_map, List.getElem?_range h]
  refine ⟨hlen, ?_, ?_⟩
  · rw [hval]
    by_cases hc : p < u i
    · simp only [if_pos hc]
      norm_num
      exact hc
    · simp only [if_neg hc]
      norm_num
      exact not_lt.mp hc
  · rw [hval]
    by_cases hc : p < u i
    · left; rw [if_pos hc]; norm_num
    · right; rw [if_neg hc]; norm_num

/-- Witness for C6 at a concrete stream: with `p = 1/2` and first variate
`1/4 ≤ p`, edge 0 is inhibitory. -/
theorem generate_types_spec_witness :
    (generate_types (fun i => if i = 0 then 1 / 4 else 3 / 4) 2 (1 / 2)).length = 2 ∧
      ((generate_types (fun i => if i = 0 then 1 / 4 else 3 / 4) 2 (1 / 2)).getD 0 0
          = -1 ↔ (if (0 : ℕ) = 0 then (1 / 4 : ℚ) else 3 / 4) ≤ 1 / 2) ∧
      ((generate_types (fun i => if i = 0 then 1 / 4 else 3 / 4) 2 (1 / 2)).getD 0 0
          = 1 ∨
        (generate_types (fun i => if i = 0 then 1 / 4 else 3 / 4) 2 (1 / 2)).getD 0 0
          = -1) :=
  generate_types_spec (fun i => if i = 0 then 1 / 4 else 3 / 4) (1 / 2) 2 0
    (by decide)

/-- C4.  `random_free_scale` raises `NameError` — for an invalid Pareto
exponent (`in_exp = 3/2 ≤ 2`) just as for perfectly valid parameters — and
in particular never raises the spec's `InvalidParameter`: no validation code
exists and the body dies at line 135 on the undefined name `dicProperties`
before anything else. -/
theorem random_free_scale_no_validation :
    random_free_scale 10 (1 / 10) (-1) (-1) 0 (3 / 2) (5 / 2) true false =
      .error .nameError ∧
    random_free_scale 10 (1 / 10) (-1) (-1) 0 (5 / 2) (5 / 2) true false =
      .error .nameError ∧
    (Except.error PyErr.nameError : Except PyErr EGraph) ≠
      .error .invalidParameter :=
  ⟨rfl, rfl, by decide⟩

/-- C7 counterexample.  On a concrete graph whose per-edge betweenness is
necessarily all-equal (two symmetric edges), the strategy does not fail with
`InvalidInput` as the claim demands: it raises `NameError`, because
`betweenness` is never imported; the degenerate-input check does not
exist. -/
theorem betweenness_weights_not_invalid_input :
    betweenness_correlated_weights ⟨true, 2, [(0, 1), (1, 0)]⟩ sampleDic 2 1 =
      .error .nameError ∧
    betweenness_correlated_weights ⟨true, 2, [(0, 1), (1, 0)]⟩ sampleDic 2 1 ≠
      .error .invalidInput :=
  ⟨rfl, by decide⟩

/-- C7 amended.  Every call of `betweenness_correlated_weights` — degenerate
betweenness or not — raises `NameError` at line 345 (`betweenness` is never
brought into scope); no `InvalidInput` path exists and the zero-denominator
rescale of line 350 is unreachable. -/
theorem betweenness_weights_name_error (graph : EGraph) (d : DicProperties)
    (nE nX : ℕ) :
    betweenness_correlated_weights graph d nE nX = .error .nameError := rfl

/-- C8.  `lognormal_weights` at a concrete input returns no weights at all:
line 337 reads `rScaleInhib` where line 334 bound `rScaleinHib`, so the call
raises `NameError` instead of producing a nonnegative weight per edge. -/
theorem lognormal_weights_name_error_eval :
    lognormal_weights ⟨true, 2, [(0, 1), (1, 0)]⟩ sampleDic 2 1 =
      .error .nameError := rfl

/-! ## C10: gen_edr never overshoots its target -/

theorem gen_edr_body_le (numDesired : ℕ) (c : List (Edge × Bool)) (g : EGraph)
    (h : numEdges g < numDesired) :
    numEdges (gen_edr_body numDesired c g) ≤ numDesired := by
  simp only [gen_edr_body]
  set acc := c.filterMap (fun p => if p.2 then some p.1 else none) with hacc
  by_cases hov : numDesired < numEdges g + acc.length
  · rw [if_pos hov]
    refine le_trans
      ((pyFilterEdges_spec false
        (addEdges g (acc.take (numDesired - numEdges g)))).2.1) ?_
    rw [numEdges_addEdges]
    have hlen : (acc.take (numDesired - numEdges g)).length ≤
        numDesired - numEdges g := List.length_take_le _ _
    omega
  · rw [if_neg hov]
    refine le_trans ((pyFilterEdges_spec false (addEdges g acc)).2.1) ?_
    rw [numEdges_addEdges]
    omega

theorem gen_edr_loop_le (numDesired : ℕ) (cand : Nat → List (Edge × Bool)) :
    ∀ (fuel : ℕ) (g : EGraph) (t : ℕ), numEdges g ≤ numDesired →
      numEdges (gen_edr_loop numDesired cand fuel g t).1 ≤ numDesired := by
  intro fuel
  induction fuel with
  | zero =>
    intro g t h
    rw [gen_edr_loop]
    exact h
  | succ f ih =>
    intro g t h
    rw [gen_edr_loop]
    by_cases hg : numEdges g < numDesired
    · rw [if_pos hg]
      exact ih _ _ (gen_edr_body_le numDesired (cand t) g hg)
    · rw [if_neg hg]
      exact h

/-- C10.  With `numDesiredEdges = int(density·nodes²)` (line 265): a body
iteration entered below the target leaves the edge count at most the target
(an accepted batch that would overshoot is truncated to the deficit, and the
self-loop/parallel removals only shrink the count), and the whole capped
loop keeps any initial count that is at most the target at most the target —
so the graph handed on to pruning never exceeds it. -/
theorem gen_edr_never_overshoots (rDens : ℚ) (nNodes : ℕ)
    (c : List (Edge × Bool)) (cand : Nat → List (Edge × Bool)) (fuel t : ℕ)
    (g1 g2 : EGraph)
    (h1 : numEdges g1 < numDesiredEdges rDens nNodes)
    (h2 : numEdges g2 ≤ numDesiredEdges rDens nNodes) :
    numEdges (gen_edr_body (numDesiredEdges rDens nNodes) c g1) ≤
        numDesiredEdges rDens nNodes ∧
      numEdges (gen_edr_loop (numDesiredEdges rDens nNodes) cand fuel g2 t).1 ≤
        numDesiredEdges rDens nNodes :=
  ⟨gen_edr_body_le _ c g1 h1, gen_edr_loop_le _ cand fuel g2 t h2⟩

/-- Witness for C10: target `int(2·1²) = 2`; a body round entered with one
edge and three accepted candidates truncates to the deficit, and a 3-round
loop from the empty graph stays within the target. -/
theorem gen_edr_never_overshoots_witness :
    numEdges (gen_edr_body (numDesiredEdges 2 1)
        [((0, 1), true), ((1, 0), true), ((1, 1), true)] ⟨true, 2, [(0, 1)]⟩) ≤
        numDesiredEdges 2 1 ∧
      numEdges (gen_edr_loop (numDesiredEdges 2 1)
        (fun _ => [((0, 1), true), ((1, 0), true), ((1, 1), true)]) 3
        ⟨true, 1, []⟩ 0).1 ≤ numDesiredEdges 2 1 :=
  gen_edr_never_overshoots 2 1
    [((0, 1), true), ((1, 0), true), ((1, 1), true)]
    (fun _ => [((0, 1), true), ((1, 0), true), ((1, 1), true)]) 3 0
    ⟨true, 2, [(0, 1)]⟩ ⟨true, 1, []⟩
    (by with_unfolding_all decide) (by with_unfolding_all decide)

/-! ## C9: pruning isolated vertices is idempotent -/

theorem filterRange_mono (f : ℕ → Bool) {v w : ℕ} (h : v ≤ w) :
    ((List.range v).filter f).length ≤ ((List.range w).filter f).length :=
  ((List.range_sublist.mpr h).filter f).length_le

theorem filterRange_strict (f : ℕ → Bool) {v w : ℕ} (hf : f v = true)
    (h : v < w) :
    ((List.range v).filter f).length < ((List.range w).filter f).length := by
  have hstep : ((List.range (v + 1)).filter f).length =
      ((List.range v).filter f).length + 1 := by
    rw [List.range_succ v, List.filter_append]
    simp [hf]
  have hm := filterRange_mono f (show v + 1 ≤ w from h)
  omega

theorem filterRange_surj (f : ℕ → Bool) :
    ∀ (n m : ℕ), m < ((List.range n).filter f).length →
      ∃ v, v < n ∧ f v = true ∧ ((List.range v).filter f).length = m := by
  intro n
  induction n with
  | zero => intro m hm; simp at hm
  | succ k ih =>
    intro m hm
    rw [List.range_succ k, List.filter_append] at hm
    by_cases hmk : m < ((List.range k).filter f).length
    · obtain ⟨v, h1, h2, h3⟩ := ih m hmk
      exact ⟨v, Nat.lt_succ_of_lt h1, h2, h3⟩
    · rw [List.length_append] at hm
      by_cases hfk : f k = true
      · refine ⟨k, Nat.lt_succ_self k, hfk, ?_⟩
        simp only [List.filter_cons, hfk, List.filter_nil, if_true] at hm
        simp only [List.length_cons, List.length_nil] at hm
        omega
      · simp only [List.filter_cons, List.filter_nil] at hm
        rw [if_neg (by simp [hfk])] at hm
        simp only [List.length_nil] at hm
        omega

theorem totalDegree_pos_of_mem {g : EGraph} {e : Edge} (he : e ∈ g.edges) :
    0 < totalDegree g e.1 ∧ 0 < totalDegree g e.2 := by
  constructor
  · have hm : e ∈ g.edges.filter (fun x => decide (x.1 = e.1)) :=
      List.mem_filter.mpr ⟨he, by simp⟩
    have := List.length_pos_of_mem hm
    unfold totalDegree
    omega
  · have hm : e ∈ g.edges.filter (fun x => decide (x.2 = e.2)) :=
      List.mem_filter.mpr ⟨he, by simp⟩
    have := List.length_pos_of_mem hm
    unfold totalDegree
    omega

theorem exists_edge_of_totalDegree_pos {g : EGraph} {v : ℕ}
    (h : 0 < totalDegree g v) : ∃ e ∈ g.edges, e.1 = v ∨ e.2 = v := by
  unfold totalDegree at h
  by_cases h1 : 0 < (g.edges.filter (fun x => decide (x.1 = v))).length
  · obtain ⟨e, he⟩ := List.exists_mem_of_ne_nil _
      (List.ne_nil_of_length_pos h1)
    have hf := List.mem_filter.mp he
    exact ⟨e, hf.1, Or.inl (by simpa using hf.2)⟩
  · have h2 : 0 < (g.edges.filter (fun x => decide (x.2 = v))).length := by omega
    obtain ⟨e, he⟩ := List.exists_mem_of_ne_nil _
      (List.ne_nil_of_length_pos h2)
    have hf := List.mem_filter.mp he
    exact ⟨e, hf.1, Or.inr (by simpa using hf.2)⟩

theorem keptBelow_lt_prune {g : EGraph} {v : ℕ} (hv : v < g.numVertices)
    (hd : 0 < totalDegree g v) :
    keptBelow g v < (prune_isolated g).numVertices :=
  filterRange_strict (fun u => decide (0 < totalDegree g u)) (by simpa using hd) hv

theorem Wf_prune {g : EGraph} (hwf : Wf g) : Wf (prune_isolated g) := by
  intro e' he'
  obtain ⟨e, he, rfl⟩ := List.mem_map.mp he'
  obtain ⟨hd1, hd2⟩ := totalDegree_pos_of_mem he
  obtain ⟨hv1, hv2⟩ := hwf e he
  exact ⟨keptBelow_lt_prune hv1 hd1, keptBelow_lt_prune hv2 hd2⟩

theorem prune_deg_pos {g : EGraph} (hwf : Wf g) :
    ∀ v' < (prune_isolated g).numVertices, 0 < totalDegree (prune_isolated g) v' := by
  intro v' hv'
  obtain ⟨v, hvn, hfv, hcount⟩ :=
    filterRange_surj (fun u => decide (0 < totalDegree g u)) g.numVertices v' hv'
  have hdv : 0 < totalDegree g v := by simpa using hfv
  obtain ⟨e, he, hor⟩ := exists_edge_of_totalDegree_pos hdv
  have he' : (keptBelow g e.1, keptBelow g e.2) ∈ (prune_isolated g).edges :=
    List.mem_map.mpr ⟨e, he, rfl⟩
  have hkv : keptBelow g v = v' := hcount
  rcases hor with h1 | h2
  · have hm : (keptBelow g e.1, keptBelow g e.2) ∈
        (prune_isolated g).edges.filter (fun x => decide (x.1 = v')) :=
      List.mem_filter.mpr ⟨he', by simp [h1, hkv]⟩
    have := List.length_pos_of_mem hm
    unfold totalDegree
    omega
  · have hm : (keptBelow g e.1, keptBelow g e.2) ∈
        (prune_isolated g).edges.filter (fun x => decide (x.2 = v')) :=
      List.mem_filter.mpr ⟨he', by simp [h2, hkv]⟩
    have := List.length_pos_of_mem hm
    unfold totalDegree
    omega

theorem keptBelow_id {g : EGraph}
    (hall : ∀ u, u < g.numVertices → 0 < totalDegree g u) :
    ∀ v, v ≤ g.numVertices → keptBelow g v = v := by
  intro v hv
  unfold keptBelow
  rw [List.filter_eq_self.mpr, List.length_range]
  intro a ha
  have hav : a < v := List.mem_range.mp ha
  simpa using hall a (lt_of_lt_of_le hav hv)

/-- C9.  Pruning isolated vertices is idempotent: a second application of
the find-isolated / remove / reindex step changes nothing (same vertex
count, same edge list) and its reindexing map is the identity on every
surviving vertex. -/
theorem prune_isolated_idempotent (g : EGraph) (hwf : Wf g) :
    prune_isolated (prune_isolated g) = prune_isolated g ∧
      ∀ v, v < (prune_isolated g).numVertices →
        keptBelow (prune_isolated g) v = v := by
  have hwf' : Wf (prune_isolated g) := Wf_prune hwf
  have hdeg : ∀ v' < (prune_isolated g).numVertices,
      0 < totalDegree (prune_isolated g) v' := prune_deg_pos hwf
  have hid : ∀ v, v ≤ (prune_isolated g).numVertices →
      keptBelow (prune_isolated g) v = v := keptBelow_id hdeg
  constructor
  · have hN : ((List.range (prune_isolated g).numVertices).filter
        (fun u => decide (0 < totalDegree (prune_isolated g) u))).length =
        (prune_isolated g).numVertices := by
      rw [List.filter_eq_self.mpr, List.length_range]
      intro a ha
      simpa using hdeg a (List.mem_range.mp ha)
    have hE : (prune_isolated g).edges.map
        (fun e => (keptBelow (prune_isolated g) e.1,
          keptBelow (prune_isolated g) e.2)) = (prune_isolated g).edges := by
      have hcongr : ∀ e ∈ (prune_isolated g).edges,
          (keptBelow (prune_isolated g) e.1, keptBelow (prune_isolated g) e.2) =
            id e := by
        intro e he
        obtain ⟨h1, h2⟩ := hwf' e he
        simp [hid e.1 (le_of_lt h1), hid e.2 (le_of_lt h2)]
      rw [List.map_congr_left hcongr, List.map_id]
    show (⟨(prune_isolated g).directed,
      ((List.range (prune_isolated g).numVertices).filter
        (fun u => decide (0 < totalDegree (prune_isolated g) u))).length,
      (prune_isolated g).edges.map
        (fun e => (keptBelow (prune_isolated g) e.1,
          keptBelow (prune_isolated g) e.2))⟩ : EGraph) = prune_isolated g
    rw [hN, hE]
  · intro v hv
    exact hid v (le_of_lt hv)

/-- Witness for C9: pruning `0 → 2` on three vertices removes the isolated
vertex 1, and a second pruning is the identity. -/
theorem prune_isolated_idempotent_witness :
    Wf ⟨true, 3, [(0, 2)]⟩ ∧
      prune_isolated (prune_isolated ⟨true, 3, [(0, 2)]⟩) =
        prune_isolated ⟨true, 3, [(0, 2)]⟩ ∧
      keptBelow (prune_isolated ⟨true, 3, [(0, 2)]⟩) 1 = 1 :=
  ⟨by decide,
    (prune_isolated_idempotent ⟨true, 3, [(0, 2)]⟩ (by decide)).1,
    (prune_isolated_idempotent ⟨true, 3, [(0, 2)]⟩ (by decide)).2 1 (by decide)⟩

end NNGT
